import Mathlib

/-!
Verification development for the Electrum-CHI blockchain header store
(`electrum_chi/electrum/blockchain.py`).

The Python source is shallowly embedded: dictionaries become structures,
byte strings become `List Nat` (each element a byte value), hex strings
become `String`, machine integers become `Nat`/`Int`, raising code returns
`Except PyErr`, and Python's floor division and modulo on integers become
`Int` `/` and `%` (Python `//` and `%` agree with them whenever the divisor
is positive, and every divisor in this code is the literal 2016).

Helpers that live in modules outside the provided source tree
(`bitcoin.py`, `util.py`, `crypto.py`, `powdata.py`, `difficulty.py`,
`constants.py`) are modelled from the specification; each such definition
carries a doc comment starting with `Modelled from the spec:`.
-/

namespace ElectrumChi

/-- Errors raised by the embedded Python code.  Every constructor stands for
an exception that is a Python `Exception` (the embedded code never raises a
`BaseException` that is not an `Exception`). -/
inductive PyErr : Type where
  | missingHeader (height : Int)
  | invalidHeader
  | invalidLength
  | invalidBits
  | keyError
  | indexError
  | attributeError
  | assertionError
  | hashMismatch
  | prevHashMismatch
  | nonZeroBits
  | bitsMismatch
  | powError
  | readError
  | tooManySwaps
  deriving DecidableEq, Repr

/-! ## Hex and byte helpers (external modules, modelled from the spec) -/

/-- Modelled from the spec: lowercase hex character for a digit value below 16
(hash strings are 64 lowercase hex chars, spec section 6). -/
def hexCharOf (d : Nat) : Char :=
  if d < 10 then Char.ofNat (48 + d) else Char.ofNat (87 + d)

/-- Modelled from the spec: two hex characters of a byte value. -/
def byteHex (b : Nat) : List Char :=
  [hexCharOf (b / 16 % 16), hexCharOf (b % 16)]

/-- Modelled from the spec: hex encoding of a byte string (`binascii.hexlify`,
as used through `bh2u` in `util.py`, which is not under src/). -/
def bytesToHex (bs : List Nat) : String :=
  String.mk (bs.map byteHex).flatten

/-- Modelled from the spec: value of one hex character (0 for non-hex input;
`bfh` raises on genuinely non-hex strings, but every string it is applied to
here was produced by hex encoding). -/
def hexDigitVal (c : Char) : Nat :=
  if ('0' ≤ c ∧ c ≤ '9') then c.toNat - 48
  else if ('a' ≤ c ∧ c ≤ 'f') then c.toNat - 87
  else if ('A' ≤ c ∧ c ≤ 'F') then c.toNat - 55
  else 0

/-- Modelled from the spec: consecutive pairs of hex characters as bytes. -/
def hexPairs : List Char → List Nat
  | a :: b :: t => (hexDigitVal a * 16 + hexDigitVal b) :: hexPairs t
  | _ => []

/-- Modelled from the spec: `bfh` from `util.py` (not under src/): hex string
to byte string. -/
def hexToBytes (s : String) : List Nat :=
  hexPairs s.data

/-- Modelled from the spec: `w` little-endian bytes of `n`
(`int_to_hex` padding in `bitcoin.py`, not under src/). -/
def leBytes : Nat → Nat → List Nat
  | 0, _ => []
  | w + 1, n => n % 256 :: leBytes w (n / 256)

/-- `int.from_bytes(s, byteorder='little')` on a byte string. -/
def leNat (bs : List Nat) : Nat :=
  bs.foldr (fun b acc => b + 256 * acc) 0

/-- `int.from_bytes(s, byteorder='big')` on a byte string. -/
def beNat (bs : List Nat) : Nat :=
  bs.foldl (fun acc b => acc * 256 + b) 0

/-- Modelled from the spec: `int_to_hex(n, w)` from `bitcoin.py` (not under
src/) renders `n` as `w` little-endian bytes in hex. -/
def int_to_hex (n : Nat) (w : Nat) : String :=
  bytesToHex (leBytes w n)

/-- Modelled from the spec: `rev_hex` from `bitcoin.py` (not under src/)
reverses the byte order of a hex string. -/
def rev_hex (s : String) : String :=
  bytesToHex (hexToBytes s).reverse

/-- Modelled from the spec: `hash_encode` from `bitcoin.py` (not under src/)
reverses the bytes and hex-encodes (big-endian display order, spec 4.B). -/
def hash_encode (bs : List Nat) : String :=
  bytesToHex bs.reverse

/-- Modelled from the spec: the double-SHA256 `sha256d` from `crypto.py` is
not under src/ and its internals are outside this specification's scope; it
is threaded through as an abstract byte-string function. -/
def ShaFun : Type := List Nat → List Nat

/-! ## Data model -/

/-- The `{algo, bits}` content of powdata's base form (spec section 3; the
`powdata` module is not under src/). -/
structure PowData : Type where
  algo : Nat
  bits : Nat
  deriving DecidableEq, Repr

/-- A header dict.  `powdata` and `chainwork` have placeholder defaults
standing for keys that `deserialize_pure_header` has not yet populated. -/
structure Header : Type where
  version : Nat
  prev_block_hash : String
  merkle_root : String
  timestamp : Nat
  bits : Nat
  nonce : Nat
  block_height : Int
  powdata : PowData := ⟨0, 0⟩
  chainwork : Nat := 0
  deriving DecidableEq, Repr

/-- A `{height, timestamp, bits}` difficulty record as returned by
`difficulty_data_for_block` and stored in checkpoint `algo_headers`. -/
structure DiffData : Type where
  height : Int
  timestamp : Nat
  bits : Nat
  deriving DecidableEq, Repr

/-- One entry of `constants.net.CHECKPOINTS` (spec section 6):
`{hash, chainwork, algo_headers}` with `algo_headers` keyed by algo id. -/
structure Checkpoint : Type where
  hash : String
  chainwork : Nat
  algo_headers : List (Nat × List DiffData)
  deriving DecidableEq, Repr

/-- Modelled from the spec: the read-only network configuration
(`constants.net`, not under src/): genesis hash, testnet flag, checkpoints. -/
structure NetConfig : Type where
  GENESIS : String
  TESTNET : Bool
  CHECKPOINTS : List Checkpoint
  deriving DecidableEq, Repr

/-- Modelled from the spec: `constants.net.max_checkpoint()` is
`len(CHECKPOINTS) * 2016 - 1` (spec section 6). -/
def maxCheckpoint (cfg : NetConfig) : Int :=
  (cfg.CHECKPOINTS.length : Int) * 2016 - 1

/-- Python list indexing: negative indices count from the end; out of range
raises `IndexError`. -/
def pyIndex {α : Type} (l : List α) (i : Int) : Except PyErr α :=
  let j : Int := if i < 0 then i + l.length else i
  if j < 0 then Except.error PyErr.indexError
  else
    match l.get? j.toNat with
    | some a => Except.ok a
    | none => Except.error PyErr.indexError

/-- A `Blockchain` object: forkpoint, forkpoint hash, previous hash, the
byte content of its backing file, the cached `_size` record count, and the
parent chain.  The registry-level bookkeeping (global `blockchains` dict,
file names) is outside this chain-local model. -/
inductive Chain : Type where
  | mk (forkpoint : Int) (forkpointHash : String) (prevHash : Option String)
      (file : List Nat) (sizeRec : Nat) (parent : Option Chain)

def Chain.forkpoint : Chain → Int
  | .mk fp _ _ _ _ _ => fp

def Chain.forkpointHash : Chain → String
  | .mk _ fph _ _ _ _ => fph

def Chain.prevHash : Chain → Option String
  | .mk _ _ ph _ _ _ => ph

def Chain.file : Chain → List Nat
  | .mk _ _ _ f _ _ => f

def Chain.sizeRec : Chain → Nat
  | .mk _ _ _ _ s _ => s

def Chain.parent : Chain → Option Chain
  | .mk _ _ _ _ _ p => p

/-- `Blockchain.height` (source lines 339-341): `forkpoint + size - 1`. -/
def Chain.heightV (c : Chain) : Int :=
  c.forkpoint + c.sizeRec - 1

/-! ## Header codec (source lines 53-141) -/

/-- `serialize_pure_header` (source lines 53-60). -/
def serialize_pure_header (h : Header) : String :=
  int_to_hex h.version 4 ++ rev_hex h.prev_block_hash ++ rev_hex h.merkle_root ++
    int_to_hex h.timestamp 4 ++ int_to_hex h.bits 4 ++ int_to_hex h.nonce 4

/-- `hash_raw_header` (source lines 140-141): `hash_encode(sha256d(bfh(header)))`. -/
def hash_raw_header (sha : ShaFun) (header : String) : String :=
  hash_encode (sha (hexToBytes header))

/-- `hash_header` (source lines 132-137).  The branch defaulting a missing
`prev_block_hash` key to `'00'*32` is not representable for struct-typed
headers, whose field is always present. -/
def hash_header (sha : ShaFun) : Option Header → String
  | none => String.mk (List.replicate 64 '0')
  | some header => hash_raw_header sha (serialize_pure_header header)

/-- `deserialize_pure_header` (source lines 68-82). -/
def deserialize_pure_header (s : List Nat) (height : Int) : Except PyErr Header :=
  if s = [] then Except.error PyErr.invalidHeader
  else if s.length ≠ 80 then Except.error PyErr.invalidLength
  else Except.ok
    { version := leNat ((s.drop 0).take 4)
      prev_block_hash := hash_encode ((s.drop 4).take 32)
      merkle_root := hash_encode ((s.drop 36).take 32)
      timestamp := leNat ((s.drop 68).take 4)
      bits := leNat ((s.drop 72).take 4)
      nonce := leNat ((s.drop 76).take 4)
      block_height := height }

/-- Modelled from the spec: `powdata.deserialize_base` (module `powdata` is
not under src/).  The base form is the 5-byte `{algo: u8, bits: u32}` record
occupying bytes [80:85) of a 117-byte disk record (spec sections 3 and 6);
the u32 is read little-endian like the other header integers. -/
def powdata_deserialize_base (s : List Nat) (start_position : Nat) :
    Except PyErr (PowData × Nat) :=
  if s.length < start_position + 5 then Except.error PyErr.invalidHeader
  else
    Except.ok
      (⟨(s.drop start_position).headD 0, leNat ((s.drop (start_position + 1)).take 4)⟩,
        start_position + 5)

/-- `deserialize_disk_header` (source lines 84-100). -/
def deserialize_disk_header (s : List Nat) (height : Int) : Except PyErr Header := do
  let h ← deserialize_pure_header (s.take 80) height
  let (pd, start1) ← powdata_deserialize_base s 80
  let work_bytes := (s.drop start1).take 32
  if work_bytes.length < 32 then throw PyErr.invalidLength
  else
    let cw := beNat work_bytes
    if start1 + 32 ≠ s.length then throw PyErr.invalidLength
    else pure { h with powdata := pd, chainwork := cw }

/-- Modelled from the spec: `powdata.deserialize` (full form, with AuxPoW) is
not under src/; it is an abstract parser from a byte string and start offset
to a powdata record and end offset. -/
def FullPowParser : Type := List Nat → Nat → Except PyErr (PowData × Nat)

/-- `deserialize_full_header` (source lines 102-130): parse the pure header,
then powdata in base form when the (possibly `None`-rebound) height is at or
below the max checkpoint, else in full form; reject trailing bytes unless
`expect_trailing_data`. -/
def deserialize_full_header (dFull : FullPowParser) (cfg : NetConfig) (s : List Nat)
    (height : Int) (expect_trailing_data : Bool) (start_position : Nat) :
    Except PyErr (Header × Nat) := do
  let pure_header_bytes := (s.drop start_position).take 80
  let h ← deserialize_pure_header pure_header_bytes height
  let start1 := start_position + 80
  let heightOpt : Option Int := if height = 0 ∧ cfg.CHECKPOINTS = [] then none else some height
  let (pd, start2) ←
    match heightOpt with
    | some hh =>
        if hh ≤ maxCheckpoint cfg then powdata_deserialize_base s start1 else dFull s start1
    | none => dFull s start1
  let h := { h with powdata := pd }
  if expect_trailing_data then pure (h, start2)
  else if start2 ≠ s.length then throw PyErr.invalidLength
  else pure (h, start2)

/-- `deserialize_full_header` with the powdata-form branch (source lines
118-123) replaced by the constant `useBase`; used to state which form the
real function parses. -/
def deserialize_full_header_forced (useBase : Bool) (dFull : FullPowParser) (cfg : NetConfig)
    (s : List Nat) (height : Int) (expect_trailing_data : Bool) (start_position : Nat) :
    Except PyErr (Header × Nat) := do
  let pure_header_bytes := (s.drop start_position).take 80
  let h ← deserialize_pure_header pure_header_bytes height
  let start1 := start_position + 80
  let (pd, start2) ←
    if useBase then powdata_deserialize_base s start1 else dFull s start1
  let h := { h with powdata := pd }
  if expect_trailing_data then pure (h, start2)
  else if start2 ≠ s.length then throw PyErr.invalidLength
  else pure (h, start2)

/-! ## Compact bits codec (source lines 667-689) -/

/-- Big-endian hex digits of `n`, padded to width `w` (the digit list of
`n % 16^w`; faithful to `"%0{w}x" % n` for `n < 16^w`, which holds at every
use site since targets are below `2^256 = 16^64`). -/
def hexDigits : Nat → Nat → List Nat
  | 0, _ => []
  | w + 1, n => (n / 16 ^ w) % 16 :: hexDigits w (n % 16 ^ w)

/-- Value of a big-endian list of hex digits, as computed by
`int.from_bytes(bfh(c), byteorder='big')` on the corresponding hex string. -/
def hexValue (l : List Nat) : Nat :=
  l.foldl (fun a d => a * 16 + d) 0

/-- The loop `while c[:2] == '00' and len(c) > 6: c = c[2:]` from
`target_to_bits` (source lines 683-684), on hex-digit lists. -/
def stripPairs : List Nat → List Nat
  | 0 :: 0 :: c => if c.length + 2 > 6 then stripPairs c else 0 :: 0 :: c
  | c => c

/-- `Blockchain.bits_to_target` (source lines 667-678): compact-float decode
with the range checks on exponent and mantissa. -/
def bits_to_target (bits : Nat) : Except PyErr Nat :=
  let bitsN := (bits >>> 24) &&& 0xff
  if ¬(0x03 ≤ bitsN ∧ bitsN ≤ 0x20) then Except.error PyErr.invalidBits
  else
    let bitsBase := bits &&& 0xffffff
    if ¬(0x8000 ≤ bitsBase ∧ bitsBase ≤ 0x7fffff) then Except.error PyErr.invalidBits
    else Except.ok (bitsBase <<< (8 * (bitsN - 3)))

/-- `Blockchain.target_to_bits` (source lines 680-689).  `("%064x" % target)[2:]`
is `(hexDigits 64 target).drop 2`; `bfh(c[:6])` read big-endian is
`hexValue (c.take 6)`. -/
def target_to_bits (target : Nat) : Nat :=
  let c := (hexDigits 64 target).drop 2
  let c := stripPairs c
  let bitsN := c.length / 2
  let bitsBase := hexValue (c.take 6)
  if 0x800000 ≤ bitsBase then ((bitsN + 1) <<< 24) ||| (bitsBase >>> 8)
  else (bitsN <<< 24) ||| bitsBase

/-! ## Chain read paths (source lines 544-718) -/

/-- `Blockchain.read_header` (source lines 544-562): negative heights and
heights above the tip give `None`; heights below the forkpoint delegate to
the parent (`AttributeError` when there is none); an all-zero record is
"absent"; a short read raises; otherwise the disk record is parsed. -/
def read_header : Chain → Int → Except PyErr (Option Header)
  | .mk forkpoint _ _ file sizeRec parentOpt, height =>
    if height < 0 then Except.ok none
    else if height < forkpoint then
      match parentOpt with
      | some p => read_header p height
      | none => Except.error PyErr.attributeError
    else if height > forkpoint + sizeRec - 1 then Except.ok none
    else
      let delta := (height - forkpoint).toNat
      let h := (file.drop (delta * 117)).take 117
      if h.length < 117 then Except.error PyErr.readError
      else if h = List.replicate 117 0 then Except.ok none
      else (deserialize_disk_header h height).map some

/-- The literal string of 64 zeros returned by `get_hash` at height -1
(source line 590). -/
def zeros64 : String :=
  "0000000000000000000000000000000000000000000000000000000000000000"

/-- `Blockchain.get_hash` (source lines 583-601). -/
def get_hash (sha : ShaFun) (cfg : NetConfig) (chain : Chain) (height : Int) :
    Except PyErr String :=
  if height = -1 then Except.ok zeros64
  else if height = 0 then Except.ok cfg.GENESIS
  else if height ≤ maxCheckpoint cfg ∧ (height + 1) % 2016 = 0 then do
    let cp ← pyIndex cfg.CHECKPOINTS (height / 2016)
    pure cp.hash
  else do
    let hdr ← read_header chain height
    match hdr with
    | none => throw (PyErr.missingHeader height)
    | some h => pure (hash_header sha (some h))

/-- `Blockchain.check_hash` (source lines 310-318): assert the hash is a
64-character string, then compare against `get_hash`, swallowing every
`Exception`. -/
def check_hash (sha : ShaFun) (cfg : NetConfig) (chain : Chain) (height : Int)
    (header_hash : String) : Except PyErr Bool :=
  if header_hash.length ≠ 64 then Except.error PyErr.assertionError
  else
    match get_hash sha cfg chain height with
    | Except.ok h => Except.ok (header_hash == h)
    | Except.error _ => Except.ok false

/-- `Blockchain.get_chainwork` (source lines 701-718). -/
def get_chainwork (cfg : NetConfig) (chain : Chain) (heightOpt : Option Int) :
    Except PyErr Nat := do
  let height : Int :=
    match heightOpt with
    | none => max 0 chain.heightV
    | some h => h
  if height = -1 then pure 0
  else
    let hdr ← read_header chain height
    match hdr with
    | some h => pure h.chainwork
    | none =>
      if height ≤ maxCheckpoint cfg then
        let index := height / 2016
        if height = (index + 1) * 2016 - 1 then do
          let cp ← pyIndex cfg.CHECKPOINTS index
          pure cp.chainwork
        else throw (PyErr.missingHeader height)
      else throw (PyErr.missingHeader height)

/-! ## Difficulty adapter (source lines 603-665) -/

/-- `dict` lookup in the `extra_blocks` mapping (height to header). -/
def lookupExtra (extra : List (Int × Header)) (h : Int) : Option Header :=
  (extra.find? (fun p => p.1 == h)).map Prod.snd

/-- `cp_data["algo_headers"][f"{algo}"]` as an association-list lookup;
`none` stands for the `KeyError` case. -/
def algoHeadersFor (ahs : List (Nat × List DiffData)) (algo : Nat) :
    Option (List DiffData) :=
  (ahs.find? (fun p => p.1 == algo)).map Prod.snd

/-- `Blockchain.difficulty_data_for_block` (source lines 618-665): walk down
from `h` to the last block of the given algorithm, consulting `extra_blocks`
first, then the store, then checkpoint `algo_headers` metadata. -/
def difficulty_data_for_block (cfg : NetConfig) (chain : Chain)
    (extra : List (Int × Header)) (algo : Nat) (h : Int) :
    Except PyErr (Option DiffData) :=
  if h < 0 then Except.ok none
  else do
    let hd ←
      match lookupExtra extra h with
      | some e => Except.ok (some e)
      | none => read_header chain h
    match hd with
    | some hd =>
      if hd.powdata.algo = algo then
        pure (some ⟨h, hd.timestamp, hd.powdata.bits⟩)
      else
        difficulty_data_for_block cfg chain extra algo (h - 1)
    | none =>
      if h > maxCheckpoint cfg then throw (PyErr.missingHeader h)
      else do
        let cp ← pyIndex cfg.CHECKPOINTS (h / 2016)
        match algoHeadersFor cp.algo_headers algo with
        | none => throw PyErr.keyError
        | some hdrs =>
          match hdrs.reverse.find? (fun x => decide (x.height ≤ h)) with
          | some x => pure (some x)
          | none => throw (PyErr.missingHeader h)
termination_by (h + 1).toNat
decreasing_by
  omega

/-- Modelled from the spec: `difficulty.get_target(getter, algo, height)` is
an external contract (the `difficulty` module is not under src/); the engine
is an abstract function of the getter, the algorithm and the height. -/
def GetTargetFun : Type :=
  (Nat → Int → Except PyErr (Option DiffData)) → Nat → Int → Except PyErr Nat

/-- `Blockchain.get_expected_target` (source lines 603-616): 0 on testnet,
else delegate to the difficulty engine with `difficulty_data_for_block` as
the getter. -/
def get_expected_target (gt : GetTargetFun) (cfg : NetConfig) (chain : Chain)
    (extra : List (Int × Header)) (header : Header) : Except PyErr Nat :=
  if cfg.TESTNET then Except.ok 0
  else gt (fun algo h => difficulty_data_for_block cfg chain extra algo h)
    header.powdata.algo header.block_height

/-! ## Verification (source lines 352-371, 720-742) -/

/-- Modelled from the spec: `powdata.verify(powdata, header_hash)` (module
`powdata` is not under src/) is an abstract verifier that may raise. -/
def PowVerifier : Type := PowData → String → Except PyErr Unit

/-- `Blockchain.verify_header` (source lines 352-371). -/
def verify_header (vp : PowVerifier) (sha : ShaFun) (cfg : NetConfig) (header : Header)
    (prev_hash : String) (target : Nat) (expected_header_hash : Option String)
    (skip_auxpow : Bool) : Except PyErr Unit := do
  let _hash := hash_header sha (some header)
  match expected_header_hash with
  | some e => if e ≠ _hash then throw PyErr.hashMismatch
  | none => pure ()
  if prev_hash ≠ header.prev_block_hash then throw PyErr.prevHashMismatch
  if header.bits ≠ 0 then throw PyErr.nonZeroBits
  if cfg.TESTNET then return ()
  let bits := target_to_bits target
  if bits ≠ header.powdata.bits then throw PyErr.bitsMismatch
  let skip := if header.block_height ≤ maxCheckpoint cfg then true else skip_auxpow
  if ¬skip then vp header.powdata _hash

/-- `Blockchain.can_connect` (source lines 720-742).  Each `try`/`except` of
the source is a `match` on the `Except` value; note that the target
computation catches only `MissingHeader` (source line 736) while `get_hash`
has a bare `except` and `verify_header` a `BaseException` one. -/
def can_connect (gt : GetTargetFun) (vp : PowVerifier) (sha : ShaFun) (cfg : NetConfig)
    (chain : Chain) (header : Option Header) (check_height : Bool) (skip_auxpow : Bool) :
    Except PyErr Bool :=
  match header with
  | none => Except.ok false
  | some header =>
    let height := header.block_height
    if check_height ∧ chain.heightV ≠ height - 1 then Except.ok false
    else if height = 0 then Except.ok (hash_header sha (some header) == cfg.GENESIS)
    else
      match get_hash sha cfg chain (height - 1) with
      | Except.error _ => Except.ok false
      | Except.ok prev_hash =>
        if prev_hash ≠ header.prev_block_hash then Except.ok false
        else
          match get_expected_target gt cfg chain [] header with
          | Except.error (PyErr.missingHeader _) => Except.ok false
          | Except.error e => Except.error e
          | Except.ok target =>
            match verify_header vp sha cfg header prev_hash target none skip_auxpow with
            | Except.error _ => Except.ok false
            | Except.ok _ => Except.ok true

/-! ## File writes and the swap (source lines 422-541) -/

/-- Writing `data` into a byte string at `offset`: seek (zero-padding any gap
beyond the end of the file, as POSIX writes past EOF do), overwrite, keep the
tail. -/
def fileWrite (file data : List Nat) (offset : Nat) : List Nat :=
  let padded := if file.length < offset then file ++ List.replicate (offset - file.length) 0 else file
  padded.take offset ++ data ++ padded.drop (offset + data.length)

def Chain.withFileSize : Chain → List Nat → Nat → Chain
  | .mk fp fph ph _ _ par, f, s => .mk fp fph ph f s par

/-- `Blockchain.write` (source lines 517-529): truncate at `offset` first
when `truncate` is set and `offset` differs from `_size * 117`; then write,
and recompute `_size` (`update_size`).  The `assert_headers_file_available`
check is about the file's presence on disk, which this model cannot lose. -/
def writeChain (c : Chain) (data : List Nat) (offset : Nat) (truncate : Bool) : Chain :=
  let f0 := if truncate ∧ offset ≠ c.sizeRec * 117 then c.file.take offset else c.file
  let f1 := fileWrite f0 data offset
  c.withFileSize f1 (f1.length / 117)

/-- Result of one `_swap_with_parent` call: whether it swapped, the updated
`self` object, and the updated former parent object (when a swap happened). -/
structure SwapOutcome : Type where
  swapped : Bool
  selfAfter : Chain
  parentAfter : Option Chain

/-- `Blockchain._swap_with_parent` (source lines 460-504).  File contents
follow the object whose `path()` they end up under after the `os.replace`
renames: the promoted child keeps the parent's old file (with the child's
data written in at the fork offset) and the demoted parent keeps the child's
old file (overwritten with the parent's above-fork records).  The registry
pointer updates (source lines 500-503) are registry-level bookkeeping outside
this chain-local model. -/
def swap_with_parent_once (sha : ShaFun) (cfg : NetConfig) (self : Chain) :
    Except PyErr SwapOutcome :=
  match self.parent with
  | none => Except.ok ⟨false, self, none⟩
  | some parent => do
    let pcw ← get_chainwork cfg parent none
    let scw ← get_chainwork cfg self none
    if pcw ≥ scw then pure ⟨false, self, none⟩
    else
      let parent_branch_size : Int := parent.heightV - self.forkpoint + 1
      let forkpoint := self.forkpoint
      let my_data := self.file
      if forkpoint ≤ parent.forkpoint then throw PyErr.assertionError
      else
        let offset : Nat := ((forkpoint - parent.forkpoint) * 117).toNat
        let rest := parent.file.drop offset
        let parent_data :=
          if parent_branch_size * 117 < 0 then rest
          else rest.take (parent_branch_size * 117).toNat
        let self1 := writeChain self parent_data 0 true
        let parent1 := writeChain parent my_data offset true
        let newSelf : Chain :=
          .mk parent.forkpoint parent.forkpointHash parent.prevHash
            parent1.file parent1.sizeRec parent.parent
        let newParent : Chain :=
          .mk self.forkpoint (hash_raw_header sha (bytesToHex (parent_data.take 80)))
            self.prevHash self1.file self1.sizeRec (some newSelf)
        pure ⟨true, newSelf, some newParent⟩

/-- `Blockchain.swap_with_parent` (source lines 443-458) without the sibling
reparenting, which touches the global registry.  The `cnt > len(blockchains)`
progress guard is the fuel. -/
def swap_with_parent (sha : ShaFun) (cfg : NetConfig) : Nat → Chain → Except PyErr Chain
  | fuel, c => do
    let r ← swap_with_parent_once sha cfg c
    if r.swapped then
      match fuel with
      | 0 => throw PyErr.tooManySwaps
      | fuel' + 1 => swap_with_parent sha cfg fuel' r.selfAfter
    else pure c

/-- The arguments of the one `self.write(...)` call `save_chunk` issues. -/
structure WriteCall : Type where
  data : List Nat
  offset : Nat
  truncate : Bool
  deriving DecidableEq, Repr

/-- `Blockchain.save_chunk` (source lines 422-441).  `none` is the delegation
to the best chain (a chunk in the checkpoint region on a fork), which goes
through the global registry and is outside this chain-local model; otherwise
the issued write call and the chain after write-plus-swap are returned. -/
def save_chunk (sha : ShaFun) (cfg : NetConfig) (fuel : Nat) (self : Chain) (index : Nat)
    (chunk : List Nat) : Option (WriteCall × Except PyErr Chain) :=
  let chunk_within_checkpoint_region := index < cfg.CHECKPOINTS.length
  if chunk_within_checkpoint_region ∧ self.parent.isSome then none
  else
    let delta_height : Int := (index : Int) * 2016 - self.forkpoint
    let delta_bytes : Int := delta_height * 117
    let chunk1 := if delta_bytes < 0 then chunk.drop (-delta_bytes).toNat else chunk
    let delta1 : Int := if delta_bytes < 0 then 0 else delta_bytes
    let truncate := ¬chunk_within_checkpoint_region
    let self1 := writeChain self chunk1 delta1.toNat truncate
    some (⟨chunk1, delta1.toNat, truncate⟩, swap_with_parent sha cfg fuel self1)

instance {ε α : Type} [DecidableEq ε] [DecidableEq α] : DecidableEq (Except ε α) := fun a b =>
  match a, b with
  | .ok x, .ok y => if h : x = y then .isTrue (by rw [h]) else .isFalse (by simp [h])
  | .error x, .error y => if h : x = y then .isTrue (by rw [h]) else .isFalse (by simp [h])
  | .ok _, .error _ => .isFalse (by simp)
  | .error _, .ok _ => .isFalse (by simp)

/-! ## Concrete fixtures used by witnesses and counterexamples -/

/-- The identity function standing in for the abstract double-SHA256 in
closed evaluations (no claim depends on the hash function's values). -/
def shaId : ShaFun := fun bs => bs

/-- A network configuration with no checkpoints. -/
def cfg0 : NetConfig :=
  ⟨"00000000000000000000000000000000000000000000000000000000000000aa", false, []⟩

/-- A checkpoint fixture. -/
def cp1 : Checkpoint := ⟨"dd", 42, [(2, [⟨0, 0, 0⟩])]⟩

/-- A network configuration with one checkpoint (`max_checkpoint = 2015`). -/
def cfg1 : NetConfig := ⟨cfg0.GENESIS, false, [cp1]⟩

/-- A 117-byte disk record with stored chainwork 5. -/
def rec1 : List Nat :=
  List.replicate 80 1 ++ [2, 0, 0, 0, 0] ++ (List.replicate 31 0 ++ [5])

/-- A 117-byte disk record with stored chainwork 10. -/
def rec2 : List Nat :=
  List.replicate 80 3 ++ [2, 0, 0, 0, 0] ++ (List.replicate 31 0 ++ [10])

/-- A best chain holding one record. -/
def bestC : Chain := .mk 0 "aa" none rec1 1 none

/-- A fork of `bestC` at height 1 holding one record of larger chainwork. -/
def childC : Chain := .mk 1 "bb" (some "cc") rec2 1 (some bestC)

/-- A best chain whose backing file holds zero records. -/
def emptyC : Chain := .mk 0 "aa" none [] 0 none

/-- A full-powdata parser returning a recognizable marker record. -/
def dMark : FullPowParser := fun _ pos => Except.ok (⟨77, 99⟩, pos)

/-- 80 bytes: a full-header serialization whose powdata part is empty. -/
def pure80 : List Nat := List.replicate 80 1

/-- A difficulty engine that fails with an error that is not `MissingHeader`
(for example the `KeyError` that `difficulty_data_for_block` raises when a
checkpoint's `algo_headers` lacks the requested algorithm, source line 657). -/
def gtErr : GetTargetFun := fun _ _ _ => Except.error PyErr.keyError

/-- A difficulty engine that always returns target 0. -/
def gt0 : GetTargetFun := fun _ _ _ => Except.ok 0

/-- A powdata verifier that always accepts. -/
def vpOk : PowVerifier := fun _ _ => Except.ok ()

/-- A header at height 1 whose previous hash is `cfg0`'s genesis. -/
def hdr1 : Header :=
  { version := 0, prev_block_hash := cfg0.GENESIS, merkle_root := zeros64,
    timestamp := 0, bits := 0, nonce := 0, block_height := 1,
    powdata := ⟨2, 0⟩, chainwork := 0 }

/-- `hdr1` with a nonzero pure-header bits field. -/
def hdrBadBits : Header := { hdr1 with bits := 0x1d00ffff }

/-! # Theorems

## Claim C2: compact-bits round trip -/

theorem hexDigits_length (w n : Nat) : (hexDigits w n).length = w := by
  induction w generalizing n with
  | zero => rfl
  | succ w ih => simp [hexDigits, ih]

theorem hexDigits_zero (w : Nat) : hexDigits w 0 = List.replicate w 0 := by
  induction w with
  | zero => rfl
  | succ w ih => simp [hexDigits, ih, List.replicate_succ]

theorem hexDigits_pad (j w n : Nat) (h : n < 16 ^ w) :
    hexDigits (j + w) n = List.replicate j 0 ++ hexDigits w n := by
  induction j with
  | zero => simp
  | succ j ih =>
    have h1 : n < 16 ^ (j + w) := lt_of_lt_of_le h (Nat.pow_le_pow_right (by norm_num) (by omega))
    have hidx : (j + 1) + w = (j + w) + 1 := by omega
    rw [hidx]
    show (n / 16 ^ (j + w)) % 16 :: hexDigits (j + w) (n % 16 ^ (j + w)) = _
    rw [Nat.div_eq_of_lt h1, Nat.mod_eq_of_lt h1, Nat.zero_mod, ih, List.replicate_succ]
    rfl

theorem hexDigits_shift (w k m : Nat) (h : m < 16 ^ w) :
    hexDigits (w + k) (m * 16 ^ k) = hexDigits w m ++ List.replicate k 0 := by
  induction w generalizing m with
  | zero =>
    have hm : m = 0 := by omega
    subst hm
    simp [hexDigits_zero]
  | succ w ih =>
    have hidx : (w + 1) + k = (w + k) + 1 := by omega
    rw [hidx]
    have hpow : (16:Nat) ^ (w + k) = 16 ^ w * 16 ^ k := by rw [pow_add]
    show (m * 16 ^ k / 16 ^ (w + k)) % 16 :: hexDigits (w + k) (m * 16 ^ k % 16 ^ (w + k)) = _
    have hdiv : m * 16 ^ k / 16 ^ (w + k) = m / 16 ^ w := by
      rw [hpow, Nat.mul_comm (16 ^ w) (16 ^ k), ← Nat.div_div_eq_div_mul]
      rw [Nat.mul_div_cancel _ (Nat.pos_pow_of_pos k (by norm_num))]
    have hmod : m * 16 ^ k % 16 ^ (w + k) = (m % 16 ^ w) * 16 ^ k := by
      rw [hpow, Nat.mul_mod_mul_right]
    rw [hdiv, hmod, ih _ (Nat.mod_lt _ (Nat.pos_pow_of_pos w (by norm_num)))]
    show _ = ((m / 16 ^ w) % 16 :: hexDigits w (m % 16 ^ w)) ++ _
    rfl

theorem foldl_hexDigits (w : Nat) : ∀ n a, n < 16 ^ w →
    List.foldl (fun a d => a * 16 + d) a (hexDigits w n) = a * 16 ^ w + n := by
  induction w with
  | zero => intro n a h; simp [hexDigits]; omega
  | succ w ih =>
    intro n a h
    show List.foldl _ _ ((n / 16 ^ w) % 16 :: hexDigits w (n % 16 ^ w)) = _
    rw [List.foldl_cons]
    rw [ih _ _ (Nat.mod_lt _ (Nat.pos_pow_of_pos w (by norm_num)))]
    rw [Nat.pow_succ] at h
    have h' : n < 16 * 16 ^ w := by omega
    have hlt : n / 16 ^ w < 16 := (Nat.div_lt_iff_lt_mul (Nat.pos_pow_of_pos w (by norm_num))).mpr h'
    rw [Nat.mod_eq_of_lt hlt]
    have hdm := Nat.div_add_mod n (16 ^ w)
    have hx : (a * 16 + n / 16 ^ w) * 16 ^ w = a * 16 ^ (w + 1) + 16 ^ w * (n / 16 ^ w) := by ring
    rw [hx, Nat.add_assoc]
    omega

theorem hexValue_hexDigits (w n : Nat) (h : n < 16 ^ w) : hexValue (hexDigits w n) = n := by
  have := foldl_hexDigits w n 0 h
  simpa [hexValue] using this

theorem stripPairs_cons_cons (c : List Nat) :
    stripPairs (0 :: 0 :: c) = if c.length + 2 > 6 then stripPairs c else 0 :: 0 :: c := rfl

theorem stripPairs_head_ne (d : Nat) (hd : d ≠ 0) (l : List Nat) :
    stripPairs (d :: l) = d :: l := by
  cases d with
  | zero => exact absurd rfl hd
  | succ n => rfl

theorem stripPairs_snd_ne (d : Nat) (hd : d ≠ 0) (l : List Nat) :
    stripPairs (0 :: d :: l) = 0 :: d :: l := by
  cases d with
  | zero => exact absurd rfl hd
  | succ n => rfl

theorem stripPairs_replicate (z : Nat) : ∀ rest : List Nat, 6 ≤ rest.length →
    stripPairs (List.replicate (2 * z) 0 ++ rest) = stripPairs rest := by
  induction z with
  | zero => simp
  | succ z ih =>
    intro rest h
    have hidx : 2 * (z + 1) = (2 * z) + 1 + 1 := by omega
    rw [hidx, List.replicate_succ, List.replicate_succ, List.cons_append, List.cons_append,
        stripPairs_cons_cons]
    have hlen : (List.replicate (2 * z) (0:Nat) ++ rest).length + 2 > 6 := by
      simp [List.length_append, List.length_replicate]
      omega
    rw [if_pos hlen, ih rest h]

theorem or_shiftLeft_add (a m k : Nat) (h : m < 2 ^ k) : (a <<< k) ||| m = a <<< k + m := by
  apply Nat.eq_of_testBit_eq
  intro i
  rw [Nat.testBit_or, Nat.testBit_shiftLeft, Nat.shiftLeft_eq, Nat.mul_comm,
      Nat.testBit_mul_pow_two_add a h i]
  rcases Nat.lt_or_ge i k with hi | hi
  · simp [hi, Nat.not_le.mpr hi]
  · simp [hi, Nat.not_lt.mpr hi,
      Nat.testBit_lt_two_pow (Nat.lt_of_lt_of_le h (Nat.pow_le_pow_right (by omega) hi))]

theorem stripPairs_eq_self (a b : Nat) (l : List Nat) (h : ¬(a = 0 ∧ b = 0)) :
    stripPairs (a :: b :: l) = a :: b :: l := by
  cases a with
  | succ n => rfl
  | zero =>
    cases b with
    | succ m => rfl
    | zero => exact absurd ⟨rfl, rfl⟩ h

theorem target_to_bits_eq (t : Nat) :
    target_to_bits t =
      if 0x800000 ≤ hexValue ((stripPairs ((hexDigits 64 t).drop 2)).take 6) then
        (((stripPairs ((hexDigits 64 t).drop 2)).length / 2 + 1) <<< 24) |||
          (hexValue ((stripPairs ((hexDigits 64 t).drop 2)).take 6) >>> 8)
      else
        (((stripPairs ((hexDigits 64 t).drop 2)).length / 2) <<< 24) |||
          hexValue ((stripPairs ((hexDigits 64 t).drop 2)).take 6) := rfl

theorem hexDigits_six_cons (mant : Nat) :
    hexDigits 6 mant = (mant / 16 ^ 5) % 16 ::
      ((mant % 16 ^ 5) / 16 ^ 4) % 16 :: hexDigits 4 ((mant % 16 ^ 5) % 16 ^ 4) := rfl

theorem hexDigits_four_cons (mant : Nat) :
    hexDigits 4 mant = (mant / 16 ^ 3) % 16 :: hexDigits 3 (mant % 16 ^ 3) := rfl

theorem take_append_length (l₁ l₂ : List Nat) (n : Nat) (h : n = l₁.length) :
    (l₁ ++ l₂).take n = l₁ := by
  subst h
  rw [show l₁.length = l₁.length + 0 from rfl, List.take_append, List.take_zero, List.append_nil]

theorem take_append_length_add_two (l₁ l₂ : List Nat) (n : Nat) (h : n = l₁.length + 2) :
    (l₁ ++ l₂).take n = l₁ ++ l₂.take 2 := by
  subst h
  rw [List.take_append]

theorem target_to_bits_compact (k mant : Nat) (hk : k ≤ 29)
    (h1 : 0x8000 ≤ mant) (h2 : mant ≤ 0x7fffff) (h29 : k = 29 → mant < 0x10000) :
    target_to_bits (mant * 16 ^ (2 * k)) = (k + 3) * 2 ^ 24 + mant := by
  have p16 : ∀ j : Nat, 0 < (16:Nat) ^ j := fun j => Nat.pos_pow_of_pos j (by norm_num)
  have hm6 : mant < 16 ^ 6 := by omega
  have hm24 : mant < 2 ^ 24 := by omega
  rcases Nat.lt_or_ge k 29 with hklt | hkge
  · -- k ≤ 28: the two dropped leading hex digits are zero
    have hk28 : k ≤ 28 := by omega
    have ht : mant * 16 ^ (2 * k) < 16 ^ (6 + 2 * k) := by
      rw [pow_add]
      exact Nat.mul_lt_mul_of_lt_of_le hm6 (le_refl _) (p16 (2 * k))
    have e2 : hexDigits 64 (mant * 16 ^ (2 * k)) =
        List.replicate (58 - 2 * k) 0 ++ (hexDigits 6 mant ++ List.replicate (2 * k) 0) := by
      have e64 : (58 - 2 * k) + (6 + 2 * k) = 64 := by omega
      rw [← e64, hexDigits_pad _ _ _ ht, hexDigits_shift 6 (2 * k) mant hm6]
    have e3 : (hexDigits 64 (mant * 16 ^ (2 * k))).drop 2 =
        List.replicate (2 * (28 - k)) 0 ++ (hexDigits 6 mant ++ List.replicate (2 * k) 0) := by
      rw [e2]
      have hsplit : (58 - 2 * k) = (2 * (28 - k)) + 1 + 1 := by omega
      rw [hsplit, List.replicate_succ, List.replicate_succ]
      rfl
    have hXlen : (hexDigits 6 mant ++ List.replicate (2 * k) 0).length = 6 + 2 * k := by
      simp [hexDigits_length]
    have e4 : stripPairs ((hexDigits 64 (mant * 16 ^ (2 * k))).drop 2) =
        stripPairs (hexDigits 6 mant ++ List.replicate (2 * k) 0) := by
      rw [e3, stripPairs_replicate _ _ (by rw [hXlen]; omega)]
    by_cases hA : 16 ^ 4 ≤ mant
    · -- mantissas with a nonzero top byte: no further stripping
      have e5 : stripPairs (hexDigits 6 mant ++ List.replicate (2 * k) 0) =
          hexDigits 6 mant ++ List.replicate (2 * k) 0 := by
        rw [hexDigits_six_cons, List.cons_append, List.cons_append]
        apply stripPairs_eq_self
        rintro ⟨ha, hb⟩
        have hd5 : mant / 16 ^ 5 < 16 := by omega
        rw [Nat.mod_eq_of_lt hd5] at ha
        have hlt5 : mant < 16 ^ 5 := by omega
        rw [Nat.mod_eq_of_lt hlt5] at hb
        have hd4 : mant / 16 ^ 4 < 16 := by omega
        rw [Nat.mod_eq_of_lt hd4] at hb
        omega
      have ctake : (hexDigits 6 mant ++ List.replicate (2 * k) 0).take 6 = hexDigits 6 mant :=
        take_append_length _ _ _ (by rw [hexDigits_length])
      rw [target_to_bits_eq, e4, e5, ctake, hexValue_hexDigits 6 mant hm6, hXlen]
      rw [if_neg (by omega), or_shiftLeft_add _ _ _ hm24, Nat.shiftLeft_eq]
      have hN : (6 + 2 * k) / 2 = k + 3 := by omega
      rw [hN]
    · -- mantissas below 2^16: the mantissa's own zero top byte strips too (unless len = 6)
      have hmB : mant < 16 ^ 4 := by omega
      have hd3lt : mant / 16 ^ 3 < 16 := by omega
      have e6 : hexDigits 6 mant = List.replicate 2 0 ++ hexDigits 4 mant :=
        hexDigits_pad 2 4 mant hmB
      by_cases hk1 : 1 ≤ k
      · -- k ≥ 1: strip down to the 4 mantissa digits
        have e7 : stripPairs (hexDigits 6 mant ++ List.replicate (2 * k) 0) =
            hexDigits 4 mant ++ List.replicate (2 * k) 0 := by
          rw [e6]
          show stripPairs (0 :: 0 :: (hexDigits 4 mant ++ List.replicate (2 * k) 0)) = _
          rw [stripPairs_cons_cons,
            if_pos (by simp [hexDigits_length]; omega)]
          rw [hexDigits_four_cons, List.cons_append]
          exact stripPairs_head_ne _ (by rw [Nat.mod_eq_of_lt hd3lt]; omega) _
        have clen : (hexDigits 4 mant ++ List.replicate (2 * k) 0).length = 4 + 2 * k := by
          simp [hexDigits_length]
        have ctake : (hexDigits 4 mant ++ List.replicate (2 * k) 0).take 6 =
            hexDigits 4 mant ++ List.replicate 2 0 := by
          rw [take_append_length_add_two _ _ _ (by rw [hexDigits_length]), List.take_replicate]
          have hmin : min 2 (2 * k) = 2 := by omega
          rw [hmin]
        have hval : hexValue (hexDigits 4 mant ++ List.replicate 2 0) = mant * 256 := by
          show List.foldl _ 0 _ = _
          rw [List.foldl_append, foldl_hexDigits 4 mant 0 hmB]
          show ((0 * 16 ^ 4 + mant) * 16 + 0) * 16 + 0 = mant * 256
          ring
        rw [target_to_bits_eq, e4, e7, ctake, hval, clen]
        rw [if_pos (by omega)]
        have hsr : (mant * 256) >>> 8 = mant := by
          rw [Nat.shiftRight_eq_div_pow]
          omega
        rw [hsr, or_shiftLeft_add _ _ _ hm24, Nat.shiftLeft_eq]
        have hN : (4 + 2 * k) / 2 + 1 = k + 3 := by omega
        rw [hN]
      · -- k = 0: the length guard stops the loop at 6 digits
        have hk0 : k = 0 := by omega
        subst hk0
        have e8 : stripPairs (hexDigits 6 mant ++ List.replicate (2 * 0) 0) =
            0 :: 0 :: hexDigits 4 mant := by
          rw [e6]
          show stripPairs (0 :: 0 :: (hexDigits 4 mant ++ List.replicate (2 * 0) 0)) = _
          rw [stripPairs_cons_cons, if_neg (by simp [hexDigits_length])]
          simp
        have ctake : (0 :: 0 :: hexDigits 4 mant).take 6 = 0 :: 0 :: hexDigits 4 mant := by
          apply List.take_of_length_le
          simp [hexDigits_length]
        have hval : hexValue (0 :: 0 :: hexDigits 4 mant) = mant := by
          show List.foldl _ 0 _ = _
          rw [List.foldl_cons, List.foldl_cons]
          show List.foldl _ 0 _ = _
          rw [foldl_hexDigits 4 mant 0 hmB]
          ring
        rw [target_to_bits_eq, e4, e8, ctake, hval]
        rw [if_neg (by omega), or_shiftLeft_add _ _ _ hm24, Nat.shiftLeft_eq]
        have hlen6 : (0 :: 0 :: hexDigits 4 mant).length = 6 := by simp [hexDigits_length]
        rw [hlen6]
  · -- k = 29: the dropped two hex digits belong to the mantissa's (zero) top byte
    have hk29 : k = 29 := by omega
    subst hk29
    have hmB : mant < 16 ^ 4 := by
      have := h29 rfl
      omega
    have hd3lt : mant / 16 ^ 3 < 16 := by omega
    have ht : mant * 16 ^ (2 * 29) < 16 ^ 62 := by
      rw [show (62:Nat) = 4 + 2 * 29 from rfl, pow_add]
      exact Nat.mul_lt_mul_of_lt_of_le hmB (le_refl _) (p16 (2 * 29))
    have e2 : hexDigits 64 (mant * 16 ^ (2 * 29)) =
        List.replicate 2 0 ++ (hexDigits 4 mant ++ List.replicate 58 0) := by
      rw [show (64:Nat) = 2 + 62 from rfl, hexDigits_pad _ _ _ ht,
        show (62:Nat) = 4 + 58 from rfl,
        show (16:Nat) ^ (2 * 29) = 16 ^ 58 from rfl,
        hexDigits_shift 4 58 mant hmB]
    have e3 : (hexDigits 64 (mant * 16 ^ (2 * 29))).drop 2 =
        hexDigits 4 mant ++ List.replicate 58 0 := by
      rw [e2]
      rfl
    have e5 : stripPairs (hexDigits 4 mant ++ List.replicate 58 0) =
        hexDigits 4 mant ++ List.replicate 58 0 := by
      rw [hexDigits_four_cons, List.cons_append]
      exact stripPairs_head_ne _ (by rw [Nat.mod_eq_of_lt hd3lt]; omega) _
    have clen : (hexDigits 4 mant ++ List.replicate 58 0).length = 62 := by
      simp [hexDigits_length]
    have ctake : (hexDigits 4 mant ++ List.replicate 58 0).take 6 =
        hexDigits 4 mant ++ List.replicate 2 0 := by
      rw [take_append_length_add_two _ _ _ (by rw [hexDigits_length]), List.take_replicate]
      rfl
    have hval : hexValue (hexDigits 4 mant ++ List.replicate 2 0) = mant * 256 := by
      show List.foldl _ 0 _ = _
      rw [List.foldl_append, foldl_hexDigits 4 mant 0 hmB]
      show ((0 * 16 ^ 4 + mant) * 16 + 0) * 16 + 0 = mant * 256
      ring
    rw [target_to_bits_eq, e3, e5, ctake, hval, clen]
    rw [if_pos (by omega)]
    have hsr : (mant * 256) >>> 8 = mant := by
      rw [Nat.shiftRight_eq_div_pow]
      omega
    rw [hsr, or_shiftLeft_add _ _ _ hm24, Nat.shiftLeft_eq]

theorem bits_to_target_eq (bits : Nat) :
    bits_to_target bits =
      if ¬(0x03 ≤ (bits >>> 24) &&& 0xff ∧ (bits >>> 24) &&& 0xff ≤ 0x20) then
        Except.error PyErr.invalidBits
      else if ¬(0x8000 ≤ bits &&& 0xffffff ∧ bits &&& 0xffffff ≤ 0x7fffff) then
        Except.error PyErr.invalidBits
      else Except.ok ((bits &&& 0xffffff) <<< (8 * (((bits >>> 24) &&& 0xff) - 3))) := rfl

/-- C2 (amended): for every bits value whose exponent (bits >> 24) lies in
[0x03, 0x20] and whose mantissa (bits & 0xFFFFFF) lies in [0x8000, 0x7FFFFF],
and which does not combine exponent 0x20 with a mantissa of 0x10000 or more,
`target_to_bits (bits_to_target bits) = bits` (denormalized mantissas below
0x10000 round-trip to themselves rather than to a different canonical form). -/
theorem claim_C2_roundtrip (bits : Nat)
    (h1 : 0x03 ≤ bits >>> 24) (h2 : bits >>> 24 ≤ 0x20)
    (h3 : 0x8000 ≤ bits &&& 0xffffff) (h4 : bits &&& 0xffffff ≤ 0x7fffff)
    (h5 : bits >>> 24 = 0x20 → bits &&& 0xffffff < 0x10000) :
    ∃ t, bits_to_target bits = Except.ok t ∧ target_to_bits t = bits := by
  have hand : (bits >>> 24) &&& 0xff = bits >>> 24 := by
    have he : (0xff : Nat) = 2 ^ 8 - 1 := by norm_num
    rw [he, Nat.and_pow_two_sub_one_eq_mod, Nat.mod_eq_of_lt (by omega)]
  refine ⟨(bits &&& 0xffffff) <<< (8 * (bits >>> 24 - 3)), ?_, ?_⟩
  · rw [bits_to_target_eq, hand, if_neg (by omega), if_neg (by omega)]
  · have hmod : bits &&& 0xffffff = bits % 2 ^ 24 := by
      have he : (0xffffff : Nat) = 2 ^ 24 - 1 := by norm_num
      rw [he, Nat.and_pow_two_sub_one_eq_mod]
    have hshift : bits >>> 24 = bits / 2 ^ 24 := Nat.shiftRight_eq_div_pow bits 24
    have hpow : (2:Nat) ^ (8 * (bits >>> 24 - 3)) = 16 ^ (2 * (bits >>> 24 - 3)) := by
      rw [show (16:Nat) = 2 ^ 4 from rfl, ← pow_mul]
      congr 1
      omega
    rw [Nat.shiftLeft_eq, hpow]
    rw [target_to_bits_compact (bits >>> 24 - 3) (bits &&& 0xffffff) (by omega) h3 h4
      (fun hxx => h5 (by omega))]
    have := Nat.div_add_mod bits (2 ^ 24)
    omega

/-- Witness for C2 at the concrete compact value 0x1d00ffff. -/
theorem claim_C2_roundtrip_witness :
    (0x03 ≤ (0x1d00ffff:Nat) >>> 24 ∧ (0x1d00ffff:Nat) >>> 24 ≤ 0x20 ∧
      0x8000 ≤ (0x1d00ffff:Nat) &&& 0xffffff ∧ (0x1d00ffff:Nat) &&& 0xffffff ≤ 0x7fffff) ∧
    (∃ t, bits_to_target 0x1d00ffff = Except.ok t ∧ target_to_bits t = 0x1d00ffff) :=
  ⟨by decide,
    claim_C2_roundtrip 0x1d00ffff (by decide) (by decide) (by decide) (by decide) (by decide)⟩

/-- Counterexample to C2 as stated: 0x20010000 has exponent 0x20 in
[0x03, 0x20] and canonical (not denormalized) mantissa 0x010000 in
[0x8000, 0x7FFFFF], yet the round trip yields 0x03000000, which is neither
the input nor a valid compact value at all: `("%064x" % target)[2:]` discards
the top byte of the target. -/
theorem claim_C2_counterexample :
    (0x03 ≤ (0x20010000:Nat) >>> 24 ∧ (0x20010000:Nat) >>> 24 ≤ 0x20 ∧
      0x8000 ≤ (0x20010000:Nat) &&& 0xffffff ∧ (0x20010000:Nat) &&& 0xffffff ≤ 0x7fffff) ∧
    bits_to_target 0x20010000 = Except.ok (0x010000 <<< 232) ∧
    target_to_bits (0x010000 <<< 232) = 0x03000000 ∧
    (0x03000000 : Nat) ≠ 0x20010000 ∧
    bits_to_target 0x03000000 = Except.error PyErr.invalidBits := by
  refine ⟨by decide, by decide, by decide, by decide, by decide⟩

theorem read_header_above_tip (fp : Int) (fph : String) (ph : Option String)
    (file : List Nat) (sz : Nat) (par : Option Chain) (height : Int)
    (h0 : 0 ≤ height) (hfp : fp ≤ height) (habove : height > fp + sz - 1) :
    read_header (.mk fp fph ph file sz par) height = Except.ok none := by
  unfold read_header
  rw [if_neg (by omega), if_neg (by omega), if_pos habove]

/-- C8: on a chain whose backing file holds zero records (and whose
forkpoint is 0, so that height() = -1), `get_chainwork` with no height
argument clamps the default height to max(0, -1) = 0 and raises
`MissingHeader 0`, while an explicit height of -1 returns 0. -/
theorem claim_C8_get_chainwork_empty (cfg : NetConfig) (chain : Chain)
    (hfp : chain.forkpoint = 0) (hsz : chain.sizeRec = 0) :
    get_chainwork cfg chain none = Except.error (PyErr.missingHeader 0) ∧
    get_chainwork cfg chain (some (-1)) = Except.ok 0 := by
  obtain ⟨fp, fph, ph, file, sz, par⟩ := chain
  simp only [Chain.forkpoint] at hfp
  simp only [Chain.sizeRec] at hsz
  subst hfp hsz
  constructor
  · simp only [get_chainwork, Chain.heightV, Chain.forkpoint, Chain.sizeRec]
    norm_num [Except.bind]
    rw [read_header_above_tip 0 fph ph file 0 par 0 (by omega) (by omega) (by norm_num)]
    rfl
  · simp [get_chainwork]
    rfl


/-- Witness for C8 on a concrete empty best chain. -/
theorem claim_C8_get_chainwork_empty_witness :
    emptyC.forkpoint = 0 ∧ emptyC.sizeRec = 0 ∧
    get_chainwork cfg0 emptyC none = Except.error (PyErr.missingHeader 0) ∧
    get_chainwork cfg0 emptyC (some (-1)) = Except.ok 0 :=
  ⟨rfl, rfl, (claim_C8_get_chainwork_empty cfg0 emptyC rfl rfl).1,
    (claim_C8_get_chainwork_empty cfg0 emptyC rfl rfl).2⟩

/-- C9: `hash_header None` does not raise and returns the string of 64
zero characters, the same sentinel `get_hash` returns at height -1. -/
theorem claim_C9_hash_header_none (sha : ShaFun) (cfg : NetConfig) (chain : Chain) :
    hash_header sha none = String.mk (List.replicate 64 '0') ∧
    hash_header sha none = zeros64 ∧
    get_hash sha cfg chain (-1) = Except.ok (hash_header sha none) := by
  have h1 : hash_header sha none = String.mk (List.replicate 64 '0') := rfl
  have h2 : String.mk (List.replicate 64 '0') = zeros64 := by decide
  refine ⟨h1, h1.trans h2, ?_⟩
  unfold get_hash
  rw [if_pos rfl, h1.trans h2]

/-- C10: `check_hash` is total for every height and every 64-character
string: it maps any failure of `get_hash` (including `MissingHeader`) to
False and returns True exactly when `get_hash` succeeds and returns the given
hash. -/
theorem claim_C10_check_hash_total (sha : ShaFun) (cfg : NetConfig) (chain : Chain)
    (height : Int) (header_hash : String) (hlen : header_hash.length = 64) :
    ∃ b, check_hash sha cfg chain height header_hash = Except.ok b ∧
      (b = true ↔ get_hash sha cfg chain height = Except.ok header_hash) := by
  unfold check_hash
  rw [if_neg (by omega)]
  cases hg : get_hash sha cfg chain height with
  | ok h =>
    refine ⟨header_hash == h, rfl, ?_⟩
    constructor
    · intro hb
      have hbe : header_hash = h := by simpa [beq_iff_eq] using hb
      rw [hbe]
    · intro he
      injection he with he
      simp [beq_iff_eq, he]
  | error e =>
    refine ⟨false, rfl, ?_⟩
    constructor
    · intro hb
      exact absurd hb (by simp)
    · intro he
      cases he

/-- Witness for C10 at an unknown height on an empty chain. -/
theorem claim_C10_check_hash_total_witness :
    (String.mk (List.replicate 64 'f')).length = 64 ∧
    (∃ b, check_hash shaId cfg0 emptyC 5 (String.mk (List.replicate 64 'f')) = Except.ok b ∧
      (b = true ↔ get_hash shaId cfg0 emptyC 5 =
        Except.ok (String.mk (List.replicate 64 'f')))) :=
  ⟨by decide,
    claim_C10_check_hash_total shaId cfg0 emptyC 5 (String.mk (List.replicate 64 'f'))
      (by decide)⟩


/-- C1 (amended): `deserialize_full_header` parses the powdata portion in
base form precisely when `height <= max_checkpoint` and not (height == 0 with
no checkpoints configured); in every other case, including height == 0 with
no checkpoints configured, it parses the full powdata form with AuxPoW. -/
theorem claim_C1_powdata_form (dFull : FullPowParser) (cfg : NetConfig) (s : List Nat)
    (height : Int) (et : Bool) (p : Nat) :
    (height ≤ maxCheckpoint cfg ∧ ¬(height = 0 ∧ cfg.CHECKPOINTS = []) →
      deserialize_full_header dFull cfg s height et p =
        deserialize_full_header_forced true dFull cfg s height et p) ∧
    (¬(height ≤ maxCheckpoint cfg ∧ ¬(height = 0 ∧ cfg.CHECKPOINTS = [])) →
      deserialize_full_header dFull cfg s height et p =
        deserialize_full_header_forced false dFull cfg s height et p) := by
  constructor
  · rintro ⟨hle, hnz⟩
    simp only [deserialize_full_header, deserialize_full_header_forced, if_neg hnz, if_pos hle,
      if_true, if_false]
  · intro hn
    by_cases hz : height = 0 ∧ cfg.CHECKPOINTS = []
    · simp [deserialize_full_header, deserialize_full_header_forced, if_pos hz]
    · have hle : ¬(height ≤ maxCheckpoint cfg) := by tauto
      simp [deserialize_full_header, deserialize_full_header_forced, if_neg hz, if_neg hle]

/-- Counterexample to C1 as stated: at height 0 with no checkpoints
configured the claim says the base form is parsed, but the function invokes
the full parser (the result depends on it and differs from the base-form
parse): source lines 115-119 rebind height to None precisely so that the
genesis block is NOT truncated when there are no checkpoints. -/
theorem claim_C1_counterexample :
    ((0:Int) = 0 ∧ cfg0.CHECKPOINTS = []) ∧
    deserialize_full_header dMark cfg0 pure80 0 true 0 ≠
      deserialize_full_header_forced true dMark cfg0 pure80 0 true 0 ∧
    deserialize_full_header dMark cfg0 pure80 0 true 0 =
      deserialize_full_header_forced false dMark cfg0 pure80 0 true 0 := by
  refine ⟨⟨rfl, rfl⟩, by decide, by decide⟩

/-- Witness for C1 at height 5 under a configuration with one checkpoint. -/
theorem claim_C1_powdata_form_witness :
    ((5:Int) ≤ maxCheckpoint cfg1 ∧ ¬((5:Int) = 0 ∧ cfg1.CHECKPOINTS = [])) ∧
    deserialize_full_header dMark cfg1 pure80 5 true 0 =
      deserialize_full_header_forced true dMark cfg1 pure80 5 true 0 :=
  ⟨by decide, (claim_C1_powdata_form dMark cfg1 pure80 5 true 0).1 (by decide)⟩


theorem throw_eq_error {ε α : Type} (e : ε) : (throw e : Except ε α) = Except.error e := rfl

theorem error_bind {ε α β : Type} (e : ε) (k : α → Except ε β) :
    (Except.error e : Except ε α) >>= k = Except.error e := rfl

theorem ok_bind {ε α β : Type} (a : α) (k : α → Except ε β) :
    (Except.ok a : Except ε α) >>= k = k a := rfl

theorem pure_eq_ok {ε α : Type} (a : α) : (pure a : Except ε α) = Except.ok a := rfl

theorem verify_header_hash_mismatch (vp : PowVerifier) (sha : ShaFun) (cfg : NetConfig)
    (header : Header) (prev_hash : String) (target : Nat) (e : String) (skip : Bool)
    (he : e ≠ hash_header sha (some header)) :
    verify_header vp sha cfg header prev_hash target (some e) skip =
      Except.error PyErr.hashMismatch := by
  simp [verify_header, if_pos he, throw_eq_error, error_bind, ok_bind, pure_eq_ok]

theorem verify_header_prev_mismatch (vp : PowVerifier) (sha : ShaFun) (cfg : NetConfig)
    (header : Header) (prev_hash : String) (target : Nat) (expected : Option String) (skip : Bool)
    (hexp : expected = none ∨ expected = some (hash_header sha (some header)))
    (hp : prev_hash ≠ header.prev_block_hash) :
    verify_header vp sha cfg header prev_hash target expected skip =
      Except.error PyErr.prevHashMismatch := by
  rcases hexp with hexp | hexp <;> subst hexp <;>
    simp [verify_header, if_pos hp, throw_eq_error, error_bind, ok_bind, pure_eq_ok]

theorem verify_header_nonzero_bits (vp : PowVerifier) (sha : ShaFun) (cfg : NetConfig)
    (header : Header) (prev_hash : String) (target : Nat) (expected : Option String) (skip : Bool)
    (hexp : expected = none ∨ expected = some (hash_header sha (some header)))
    (hp : prev_hash = header.prev_block_hash) (hb : header.bits ≠ 0) :
    verify_header vp sha cfg header prev_hash target expected skip =
      Except.error PyErr.nonZeroBits := by
  rcases hexp with hexp | hexp <;> subst hexp <;>
    simp [verify_header, hp, if_pos hb, throw_eq_error, error_bind, ok_bind, pure_eq_ok]

theorem verify_header_testnet_ok (vp : PowVerifier) (sha : ShaFun) (cfg : NetConfig)
    (header : Header) (prev_hash : String) (target : Nat) (expected : Option String) (skip : Bool)
    (ht : cfg.TESTNET = true)
    (hexp : expected = none ∨ expected = some (hash_header sha (some header)))
    (hp : prev_hash = header.prev_block_hash) (hb : header.bits = 0) :
    verify_header vp sha cfg header prev_hash target expected skip = Except.ok () := by
  rcases hexp with hexp | hexp <;> subst hexp <;>
    simp [verify_header, hp, hb, ht, throw_eq_error, error_bind, ok_bind, pure_eq_ok]


/-- C6: `verify_header` raises on every header with nonzero pure-header
bits; when the expected-hash and prev-hash checks pass, that failure is
specifically the nonzero-bits error (those two checks come first, in that
order); and on testnet it returns right after the bits check, for every
verifier and every target, hence performing neither the target-bits
comparison nor AuxPoW verification. -/
theorem claim_C6_verify_header_order (vp : PowVerifier) (sha : ShaFun) (cfg : NetConfig)
    (header : Header) (prev_hash : String) (target : Nat) (expected : Option String)
    (skip : Bool) :
    (header.bits ≠ 0 →
      ∃ e, verify_header vp sha cfg header prev_hash target expected skip = Except.error e) ∧
    ((expected = none ∨ expected = some (hash_header sha (some header))) →
      prev_hash = header.prev_block_hash → header.bits ≠ 0 →
      verify_header vp sha cfg header prev_hash target expected skip =
        Except.error PyErr.nonZeroBits) ∧
    (∀ e, expected = some e → e ≠ hash_header sha (some header) →
      verify_header vp sha cfg header prev_hash target expected skip =
        Except.error PyErr.hashMismatch) ∧
    ((expected = none ∨ expected = some (hash_header sha (some header))) →
      prev_hash ≠ header.prev_block_hash →
      verify_header vp sha cfg header prev_hash target expected skip =
        Except.error PyErr.prevHashMismatch) ∧
    (cfg.TESTNET = true →
      (expected = none ∨ expected = some (hash_header sha (some header))) →
      prev_hash = header.prev_block_hash → header.bits = 0 →
      verify_header vp sha cfg header prev_hash target expected skip = Except.ok ()) := by
  refine ⟨?_,
    fun hexp hp hb => verify_header_nonzero_bits vp sha cfg header prev_hash target expected skip hexp hp hb,
    fun e he hne => by
      rw [he]
      exact verify_header_hash_mismatch vp sha cfg header prev_hash target e skip hne,
    fun hexp hp => verify_header_prev_mismatch vp sha cfg header prev_hash target expected skip hexp hp,
    fun ht hexp hp hb => verify_header_testnet_ok vp sha cfg header prev_hash target expected skip ht hexp hp hb⟩
  intro hb
  rcases hexp : expected with _ | e
  · by_cases hp : prev_hash = header.prev_block_hash
    · exact ⟨_, verify_header_nonzero_bits vp sha cfg header prev_hash target none skip (Or.inl rfl) hp hb⟩
    · exact ⟨_, verify_header_prev_mismatch vp sha cfg header prev_hash target none skip (Or.inl rfl) hp⟩
  · by_cases hehash : e = hash_header sha (some header)
    · subst hehash
      by_cases hp : prev_hash = header.prev_block_hash
      · exact ⟨_, verify_header_nonzero_bits vp sha cfg header prev_hash target _ skip (Or.inr rfl) hp hb⟩
      · exact ⟨_, verify_header_prev_mismatch vp sha cfg header prev_hash target _ skip (Or.inr rfl) hp⟩
    · exact ⟨_, verify_header_hash_mismatch vp sha cfg header prev_hash target e skip hehash⟩

/-- Witness for C6: a header with bits 0x1d00ffff is rejected. -/
theorem claim_C6_verify_header_order_witness :
    hdrBadBits.bits ≠ 0 ∧
    verify_header vpOk shaId cfg0 hdrBadBits hdrBadBits.prev_block_hash 0 none false =
      Except.error PyErr.nonZeroBits :=
  ⟨by decide,
    (claim_C6_verify_header_order vpOk shaId cfg0 hdrBadBits hdrBadBits.prev_block_hash
      0 none false).2.1 (Or.inl rfl) rfl (by decide)⟩

theorem pyIndex_ok {α : Type} (l : List α) (i : Int) (h0 : 0 ≤ i) (hlt : i.toNat < l.length) :
    pyIndex l i = Except.ok (l.get ⟨i.toNat, hlt⟩) := by
  unfold pyIndex
  rw [if_neg (by omega)]
  simp only [if_neg (by omega : ¬ i < 0)]
  rw [List.get?_eq_get hlt]

/-- C4: `get_hash h` returns the 64-zero string for h = -1, the genesis
constant for h = 0, the checkpoint stored hash, without consulting any chain
state, when h <= max_checkpoint and (h+1) mod 2016 = 0, and otherwise
`hash_header (read_header h)`, raising `MissingHeader h` whenever
`read_header h` is absent. -/
theorem claim_C4_get_hash (sha : ShaFun) (cfg : NetConfig) (chain : Chain) (h : Int)
    (hge : -1 ≤ h) :
    (h = -1 → get_hash sha cfg chain h = Except.ok zeros64) ∧
    (h = 0 → get_hash sha cfg chain h = Except.ok cfg.GENESIS) ∧
    (h ≠ -1 → h ≠ 0 → h ≤ maxCheckpoint cfg → (h + 1) % 2016 = 0 →
      ∃ cp, pyIndex cfg.CHECKPOINTS (h / 2016) = Except.ok cp ∧
        get_hash sha cfg chain h = Except.ok cp.hash ∧
        ∀ chain2, get_hash sha cfg chain2 h = Except.ok cp.hash) ∧
    (h ≠ -1 → h ≠ 0 → ¬(h ≤ maxCheckpoint cfg ∧ (h + 1) % 2016 = 0) →
      (∀ hd, read_header chain h = Except.ok (some hd) →
        get_hash sha cfg chain h = Except.ok (hash_header sha (some hd))) ∧
      (read_header chain h = Except.ok none →
        get_hash sha cfg chain h = Except.error (PyErr.missingHeader h))) := by
  refine ⟨?_, ?_, ?_, ?_⟩
  · intro h1
    subst h1
    unfold get_hash
    rw [if_pos rfl]
  · intro h0
    subst h0
    unfold get_hash
    rw [if_neg (by decide), if_pos rfl]
  · intro h1 h0 hle hmod
    have hge1 : 1 ≤ h := by omega
    have hb : 2015 ≤ h := by omega
    have hN : (h / 2016).toNat < cfg.CHECKPOINTS.length := by
      unfold maxCheckpoint at hle
      omega
    have hidx := pyIndex_ok cfg.CHECKPOINTS (h / 2016) (by omega) hN
    refine ⟨_, hidx, ?_, ?_⟩
    · unfold get_hash
      rw [if_neg h1, if_neg h0, if_pos ⟨hle, hmod⟩]
      rw [hidx]
      rfl
    · intro chain2
      unfold get_hash
      rw [if_neg h1, if_neg h0, if_pos ⟨hle, hmod⟩]
      rw [hidx]
      rfl
  · intro h1 h0 hnot
    constructor
    · intro hd hread
      unfold get_hash
      rw [if_neg h1, if_neg h0, if_neg hnot, hread]
      rfl
    · intro hread
      unfold get_hash
      rw [if_neg h1, if_neg h0, if_neg hnot, hread]
      rfl

/-- Witness for C4 at the checkpoint boundary height 2015. -/
theorem claim_C4_get_hash_witness :
    (-1 : Int) ≤ 2015 ∧
    ((2015 : Int) ≠ -1 ∧ (2015 : Int) ≠ 0 ∧ (2015 : Int) ≤ maxCheckpoint cfg1 ∧
      ((2015 : Int) + 1) % 2016 = 0) ∧
    (∃ cp, pyIndex cfg1.CHECKPOINTS ((2015 : Int) / 2016) = Except.ok cp ∧
      get_hash shaId cfg1 emptyC 2015 = Except.ok cp.hash ∧
      ∀ chain2, get_hash shaId cfg1 chain2 2015 = Except.ok cp.hash) :=
  ⟨by decide, ⟨by decide, by decide, by decide, by decide⟩,
    (claim_C4_get_hash shaId cfg1 emptyC 2015 (by decide)).2.2.1
      (by decide) (by decide) (by decide) (by decide)⟩

/-- Counterexample to C5 as stated: with a difficulty engine failing with a
KeyError (as `difficulty_data_for_block` itself does at source line 657 when
a checkpoint lacks the header algorithm), `can_connect` propagates the
exception instead of returning False: only `MissingHeader` is caught. -/
theorem claim_C5_counterexample :
    can_connect gtErr vpOk shaId cfg0 emptyC (some hdr1) false false =
      Except.error PyErr.keyError := by decide

/-- C5 (amended): `can_connect` never raises provided every failure of the
difficulty engine is a `MissingHeader`; under that proviso every internal
failure yields False, and a True result implies the previous-hash check, the
target computation and `verify_header` all succeeded.  Without the proviso a
target-computation failure other than `MissingHeader` propagates (source line
736 catches only `MissingHeader`). -/
theorem claim_C5_can_connect (gt : GetTargetFun) (vp : PowVerifier) (sha : ShaFun)
    (cfg : NetConfig) (chain : Chain) (header : Option Header)
    (check_height : Bool) (skip_auxpow : Bool)
    (hgt : ∀ g a ht e, gt g a ht = Except.error e → ∃ hh, e = PyErr.missingHeader hh) :
    (∃ b, can_connect gt vp sha cfg chain header check_height skip_auxpow = Except.ok b) ∧
    (∀ hd, header = some hd → hd.block_height ≠ 0 →
      can_connect gt vp sha cfg chain header check_height skip_auxpow = Except.ok true →
      ∃ ph t, get_hash sha cfg chain (hd.block_height - 1) = Except.ok ph ∧
        ph = hd.prev_block_hash ∧
        get_expected_target gt cfg chain [] hd = Except.ok t ∧
        verify_header vp sha cfg hd ph t none skip_auxpow = Except.ok ()) := by
  have hmiss : ∀ hd e, get_expected_target gt cfg chain [] hd = Except.error e →
      ∃ hh, e = PyErr.missingHeader hh := by
    intro hd e hget
    unfold get_expected_target at hget
    by_cases ht : cfg.TESTNET
    · rw [if_pos ht] at hget
      cases hget
    · rw [if_neg ht] at hget
      exact hgt _ _ _ _ hget
  constructor
  · match header with
    | none => exact ⟨false, rfl⟩
    | some hd =>
      show ∃ b, (let height := hd.block_height;
        if check_height ∧ chain.heightV ≠ height - 1 then Except.ok false
        else if height = 0 then Except.ok (hash_header sha (some hd) == cfg.GENESIS)
        else
          match get_hash sha cfg chain (height - 1) with
          | Except.error _ => Except.ok false
          | Except.ok prev_hash =>
            if prev_hash ≠ hd.prev_block_hash then Except.ok false
            else
              match get_expected_target gt cfg chain [] hd with
              | Except.error (PyErr.missingHeader _) => Except.ok false
              | Except.error e => Except.error e
              | Except.ok target =>
                match verify_header vp sha cfg hd prev_hash target none skip_auxpow with
                | Except.error _ => Except.ok false
                | Except.ok _ => Except.ok true) = Except.ok b
      by_cases hch : check_height ∧ chain.heightV ≠ hd.block_height - 1
      · rw [if_pos hch]
        exact ⟨false, rfl⟩
      · rw [if_neg hch]
        by_cases h0 : hd.block_height = 0
        · rw [if_pos h0]
          exact ⟨_, rfl⟩
        · rw [if_neg h0]
          cases hgh : get_hash sha cfg chain (hd.block_height - 1) with
          | error e => exact ⟨false, rfl⟩
          | ok ph =>
            show ∃ b, (if ph ≠ hd.prev_block_hash then Except.ok false
              else
                match get_expected_target gt cfg chain [] hd with
                | Except.error (PyErr.missingHeader _) => Except.ok false
                | Except.error e => Except.error e
                | Except.ok target =>
                  match verify_header vp sha cfg hd ph target none skip_auxpow with
                  | Except.error _ => Except.ok false
                  | Except.ok _ => Except.ok true) = Except.ok b
            by_cases hp : ph ≠ hd.prev_block_hash
            · rw [if_pos hp]
              exact ⟨false, rfl⟩
            · rw [if_neg hp]
              cases hget : get_expected_target gt cfg chain [] hd with
              | error e =>
                obtain ⟨hh, rfl⟩ := hmiss hd e hget
                exact ⟨false, rfl⟩
              | ok target =>
                show ∃ b, (match verify_header vp sha cfg hd ph target none skip_auxpow with
                  | Except.error _ => Except.ok false
                  | Except.ok _ => Except.ok true) = Except.ok b
                cases hv : verify_header vp sha cfg hd ph target none skip_auxpow with
                | error e => exact ⟨false, rfl⟩
                | ok u => exact ⟨true, rfl⟩
  · intro hd hhd hne htrue
    subst hhd
    replace htrue : (let height := hd.block_height;
        if check_height ∧ chain.heightV ≠ height - 1 then Except.ok false
        else if height = 0 then Except.ok (hash_header sha (some hd) == cfg.GENESIS)
        else
          match get_hash sha cfg chain (height - 1) with
          | Except.error _ => Except.ok false
          | Except.ok prev_hash =>
            if prev_hash ≠ hd.prev_block_hash then Except.ok false
            else
              match get_expected_target gt cfg chain [] hd with
              | Except.error (PyErr.missingHeader _) => Except.ok false
              | Except.error e => Except.error e
              | Except.ok target =>
                match verify_header vp sha cfg hd prev_hash target none skip_auxpow with
                | Except.error _ => Except.ok false
                | Except.ok _ => Except.ok true) = Except.ok true := htrue
    by_cases hch : check_height ∧ chain.heightV ≠ hd.block_height - 1
    · rw [if_pos hch] at htrue
      cases htrue
    · rw [if_neg hch] at htrue
      rw [if_neg hne] at htrue
      cases hgh : get_hash sha cfg chain (hd.block_height - 1) with
      | error e =>
        rw [hgh] at htrue
        cases htrue
      | ok ph =>
        rw [hgh] at htrue
        replace htrue : (if ph ≠ hd.prev_block_hash then Except.ok false
          else
            match get_expected_target gt cfg chain [] hd with
            | Except.error (PyErr.missingHeader _) => Except.ok false
            | Except.error e => Except.error e
            | Except.ok target =>
              match verify_header vp sha cfg hd ph target none skip_auxpow with
              | Except.error _ => Except.ok false
              | Except.ok _ => Except.ok true) = Except.ok true := htrue
        by_cases hp : ph ≠ hd.prev_block_hash
        · rw [if_pos hp] at htrue
          cases htrue
        · rw [if_neg hp] at htrue
          push_neg at hp
          cases hget : get_expected_target gt cfg chain [] hd with
          | error e =>
            obtain ⟨hh, rfl⟩ := hmiss hd e hget
            rw [hget] at htrue
            cases htrue
          | ok target =>
            rw [hget] at htrue
            replace htrue : (match verify_header vp sha cfg hd ph target none skip_auxpow with
              | Except.error _ => Except.ok false
              | Except.ok _ => Except.ok true) = Except.ok true := htrue
            cases hv : verify_header vp sha cfg hd ph target none skip_auxpow with
            | error e =>
              rw [hv] at htrue
              cases htrue
            | ok u =>
              exact ⟨ph, target, rfl, hp, rfl, by cases u; exact hv⟩

/-- Witness for C5 with a total difficulty engine on a concrete header. -/
theorem claim_C5_can_connect_witness :
    (∀ g a ht e, gt0 g a ht = Except.error e → ∃ hh, e = PyErr.missingHeader hh) ∧
    (∃ b, can_connect gt0 vpOk shaId cfg0 emptyC (some hdr1) false false = Except.ok b) :=
  ⟨fun g a ht e he => absurd he (by simp [gt0]),
    (claim_C5_can_connect gt0 vpOk shaId cfg0 emptyC (some hdr1) false false
      (fun g a ht e he => absurd he (by simp [gt0]))).1⟩

theorem fileWrite_length_ge (file data : List Nat) (offset : Nat) :
    file.length ≤ (fileWrite file data offset).length := by
  unfold fileWrite
  by_cases h : file.length < offset
  · rw [if_pos h]
    simp [List.length_append, List.length_take, List.length_drop]
    omega
  · rw [if_neg h]
    simp [List.length_append, List.length_take, List.length_drop]
    omega

theorem padded_get? (file : List Nat) (offset i : Nat) (hif : i < file.length) :
    (if file.length < offset then file ++ List.replicate (offset - file.length) 0 else file).get? i
      = file.get? i := by
  by_cases h : file.length < offset
  · rw [if_pos h, List.get?_append hif]
  · rw [if_neg h]

theorem fileWrite_frame (file data : List Nat) (offset i : Nat) (hif : i < file.length)
    (hout : i < offset ∨ offset + data.length ≤ i) :
    (fileWrite file data offset).get? i = file.get? i := by
  unfold fileWrite
  have hplen : offset ≤ (if file.length < offset then
      file ++ List.replicate (offset - file.length) 0 else file).length := by
    by_cases h : file.length < offset
    · rw [if_pos h]
      simp
      omega
    · rw [if_neg h]
      omega
  set padded := if file.length < offset then
      file ++ List.replicate (offset - file.length) 0 else file with hpadded
  have htlen : (padded.take offset).length = offset := by
    rw [List.length_take]
    omega
  show (padded.take offset ++ data ++ padded.drop (offset + data.length)).get? i = file.get? i
  rw [List.append_assoc]
  rcases hout with hlt | hge
  · rw [List.get?_append (by omega : i < (padded.take offset).length)]
    rw [List.get?_take hlt]
    rw [hpadded]
    exact padded_get? file offset i hif
  · rw [List.get?_append_right (by omega : (padded.take offset).length ≤ i)]
    rw [htlen]
    rw [List.get?_append_right (by omega : data.length ≤ i - offset)]
    rw [List.get?_drop]
    have harith : offset + data.length + (i - offset - data.length) = i := by omega
    rw [harith, hpadded]
    exact padded_get? file offset i hif

theorem withFileSize_parent (c : Chain) (f : List Nat) (s : Nat) :
    (c.withFileSize f s).parent = c.parent := by
  cases c
  rfl

theorem withFileSize_file (c : Chain) (f : List Nat) (s : Nat) :
    (c.withFileSize f s).file = f := by
  cases c
  rfl

theorem swap_once_parent_none (sha : ShaFun) (cfg : NetConfig) (c : Chain)
    (h : c.parent = none) :
    swap_with_parent_once sha cfg c = Except.ok ⟨false, c, none⟩ := by
  unfold swap_with_parent_once
  rw [h]

theorem swap_with_parent_of_parent_none (sha : ShaFun) (cfg : NetConfig) (fuel : Nat)
    (c : Chain) (h : c.parent = none) :
    swap_with_parent sha cfg fuel c = Except.ok c := by
  unfold swap_with_parent
  rw [swap_once_parent_none sha cfg c h]
  rfl

/-- C7: every `save_chunk` call handled locally (not delegated to the best
chain) issues its write with the truncate flag set iff
`index >= len(checkpoints)`; consequently, for a chunk within the checkpoint
region, existing file bytes outside the written byte range
[delta_bytes, delta_bytes + len(chunk)) are unchanged (and the file never
shrinks). -/
theorem claim_C7_save_chunk (sha : ShaFun) (cfg : NetConfig) (fuel : Nat) (self : Chain)
    (index : Nat) (chunk : List Nat)
    (hlocal : ¬(index < cfg.CHECKPOINTS.length ∧ self.parent.isSome = true)) :
    ∃ wc res, save_chunk sha cfg fuel self index chunk = some (wc, res) ∧
      (wc.truncate = true ↔ cfg.CHECKPOINTS.length ≤ index) ∧
      (index < cfg.CHECKPOINTS.length →
        ∃ c2, res = Except.ok c2 ∧
          self.file.length ≤ c2.file.length ∧
          ∀ i : Nat, i < self.file.length →
            ((i : Int) < ((index : Int) * 2016 - self.forkpoint) * 117 ∨
              ((index : Int) * 2016 - self.forkpoint) * 117 + chunk.length ≤ (i : Int)) →
            c2.file.get? i = self.file.get? i) := by
  simp only [save_chunk, if_neg hlocal]
  refine ⟨_, _, rfl, ?_, ?_⟩
  · simp [decide_eq_true_eq, Nat.not_lt]
  · intro hin
    have hpar : self.parent = none := by
      cases hp : self.parent with
      | none => rfl
      | some p => exact absurd ⟨hin, by rw [hp]; rfl⟩ hlocal
    have htr : (decide ¬(index < cfg.CHECKPOINTS.length)) = false := by
      simp [hin]
    rw [htr]
    set D : Int := ((index : Int) * 2016 - self.forkpoint) * 117 with hD
    set chunk1 := if D < 0 then chunk.drop (-D).toNat else chunk with hchunk1
    set off : Nat := (if D < 0 then (0:Int) else D).toNat with hoff
    have hwc : writeChain self chunk1 off false =
        self.withFileSize (fileWrite self.file chunk1 off)
          ((fileWrite self.file chunk1 off).length / 117) := by
      unfold writeChain
      rw [if_neg (by simp)]
    rw [hwc]
    refine ⟨_, swap_with_parent_of_parent_none sha cfg fuel _
      (by rw [withFileSize_parent]; exact hpar), ?_, ?_⟩
    · rw [withFileSize_file]
      exact fileWrite_length_ge _ _ _
    · intro i hi hcond
      rw [withFileSize_file]
      apply fileWrite_frame _ _ _ _ hi
      by_cases hDneg : D < 0
      · right
        have h1 : chunk1.length = chunk.length - (-D).toNat := by
          rw [hchunk1, if_pos hDneg, List.length_drop]
        rcases hcond with hlt | hge
        · omega
        · have hoff0 : off = 0 := by
            rw [hoff, if_pos hDneg]
            rfl
          rw [hoff0, h1]
          omega
      · push_neg at hDneg
        have h1 : chunk1 = chunk := by
          rw [hchunk1, if_neg (by omega)]
        have hoffD : off = D.toNat := by
          rw [hoff, if_neg (by omega)]
        rcases hcond with hlt | hge
        · left
          omega
        · right
          rw [h1]
          omega

/-- Witness for C7: a checkpoint-region chunk on the best chain. -/
theorem claim_C7_save_chunk_witness :
    (¬(0 < cfg1.CHECKPOINTS.length ∧ bestC.parent.isSome = true)) ∧
    (∃ wc res, save_chunk shaId cfg1 5 bestC 0 [7, 7, 7] = some (wc, res) ∧
      (wc.truncate = true ↔ cfg1.CHECKPOINTS.length ≤ 0) ∧
      (0 < cfg1.CHECKPOINTS.length →
        ∃ c2, res = Except.ok c2 ∧
          bestC.file.length ≤ c2.file.length ∧
          ∀ i : Nat, i < bestC.file.length →
            ((i : Int) < (((0 : Nat) : Int) * 2016 - bestC.forkpoint) * 117 ∨
              (((0 : Nat) : Int) * 2016 - bestC.forkpoint) * 117 +
                ([7, 7, 7] : List Nat).length ≤ (i : Int)) →
            c2.file.get? i = bestC.file.get? i)) :=
  ⟨by decide, claim_C7_save_chunk shaId cfg1 5 bestC 0 [7, 7, 7] (by decide)⟩

/-- C3: `_swap_with_parent` performs no swap and returns false if and only
if the chain has no parent or the parent chainwork (both chainworks being
computable) is at least the chain own chainwork; and it swaps (returns true)
whenever a parent exists, both chainworks are computable, the chain chainwork
strictly exceeds the parent one, and the forkpoint invariant asserted at
source line 483 holds. -/
theorem claim_C3_swap_condition (sha : ShaFun) (cfg : NetConfig) (self : Chain) :
    (swap_with_parent_once sha cfg self = Except.ok ⟨false, self, none⟩ ↔
      (self.parent = none ∨
        ∃ p pw sw, self.parent = some p ∧
          get_chainwork cfg p none = Except.ok pw ∧
          get_chainwork cfg self none = Except.ok sw ∧ sw ≤ pw)) ∧
    (∀ p pw sw, self.parent = some p →
      get_chainwork cfg p none = Except.ok pw →
      get_chainwork cfg self none = Except.ok sw →
      pw < sw → p.forkpoint < self.forkpoint →
      ∃ ns np, swap_with_parent_once sha cfg self = Except.ok ⟨true, ns, some np⟩) := by
  cases hp : self.parent with
  | none =>
    constructor
    · rw [swap_once_parent_none sha cfg self hp]
      constructor
      · intro _
        exact Or.inl rfl
      · intro _
        rfl
    · intro p pw sw hps
      cases hps
  | some p =>
    have hbody : swap_with_parent_once sha cfg self =
        ((get_chainwork cfg p none) >>= fun pcw =>
          (get_chainwork cfg self none) >>= fun scw =>
          if pcw ≥ scw then pure ⟨false, self, none⟩
          else
            let parent_branch_size : Int := p.heightV - self.forkpoint + 1
            let forkpoint := self.forkpoint
            let my_data := self.file
            if forkpoint ≤ p.forkpoint then throw PyErr.assertionError
            else
              let offset : Nat := ((forkpoint - p.forkpoint) * 117).toNat
              let rest := p.file.drop offset
              let parent_data :=
                if parent_branch_size * 117 < 0 then rest
                else rest.take (parent_branch_size * 117).toNat
              let self1 := writeChain self parent_data 0 true
              let parent1 := writeChain p my_data offset true
              let newSelf : Chain :=
                .mk p.forkpoint p.forkpointHash p.prevHash
                  parent1.file parent1.sizeRec p.parent
              let newParent : Chain :=
                .mk self.forkpoint (hash_raw_header sha (bytesToHex (parent_data.take 80)))
                  self.prevHash self1.file self1.sizeRec (some newSelf)
              pure ⟨true, newSelf, some newParent⟩) := by
      unfold swap_with_parent_once
      rw [hp]
    cases hgp : get_chainwork cfg p none with
    | error e =>
      have hres : swap_with_parent_once sha cfg self = Except.error e := by
        rw [hbody, hgp]
        rfl
      constructor
      · rw [hres]
        constructor
        · intro h
          cases h
        · rintro (hnone | ⟨p', pw, sw, hps, hgp', _⟩)
          · cases hnone
          · injection hps with hpe
            subst hpe
            rw [hgp] at hgp'
            cases hgp'
      · intro p' pw sw hps hgp' hgs' hlt hfk
        injection hps with hpe
        subst hpe
        rw [hgp] at hgp'
        cases hgp'
    | ok pw =>
      cases hgs : get_chainwork cfg self none with
      | error e =>
        have hres : swap_with_parent_once sha cfg self = Except.error e := by
          rw [hbody, hgp, ok_bind, hgs]
          rfl
        constructor
        · rw [hres]
          constructor
          · intro h
            cases h
          · rintro (hnone | ⟨p', pw', sw', hps, hgp', hgs', _⟩)
            · cases hnone
            · cases hgs'
        · intro p' pw' sw' hps hgp' hgs' hlt hfk
          cases hgs'
      | ok sw =>
        by_cases hge : pw ≥ sw
        · have hres : swap_with_parent_once sha cfg self = Except.ok ⟨false, self, none⟩ := by
            rw [hbody, hgp, ok_bind, hgs, ok_bind, if_pos hge]
            rfl
          constructor
          · rw [hres]
            constructor
            · intro _
              exact Or.inr ⟨p, pw, sw, rfl, hgp, rfl, hge⟩
            · intro _
              rfl
          · intro p' pw' sw' hps hgp' hgs' hlt hfk
            injection hps with hpe
            subst hpe
            rw [hgp] at hgp'
            injection hgp' with hgp'
            injection hgs' with hgs'
            omega
        · by_cases hfk : self.forkpoint ≤ p.forkpoint
          · have hres : swap_with_parent_once sha cfg self = Except.error PyErr.assertionError := by
              rw [hbody, hgp, ok_bind, hgs, ok_bind, if_neg hge]
              show (if self.forkpoint ≤ p.forkpoint then _ else _) = _
              rw [if_pos hfk]
              rfl
            constructor
            · rw [hres]
              constructor
              · intro h
                cases h
              · rintro (hnone | ⟨p', pw', sw', hps, hgp', hgs', hle⟩)
                · cases hnone
                · injection hps with hpe
                  subst hpe
                  rw [hgp] at hgp'
                  injection hgp' with hgp'
                  injection hgs' with hgs'
                  omega
            · intro p' pw' sw' hps hgp' hgs' hlt hfk'
              injection hps with hpe
              subst hpe
              omega
          · have hval : swap_with_parent_once sha cfg self =
                (let offset : Nat := ((self.forkpoint - p.forkpoint) * 117).toNat
                 let rest := p.file.drop offset
                 let parent_data :=
                   if (p.heightV - self.forkpoint + 1) * 117 < 0 then rest
                   else rest.take ((p.heightV - self.forkpoint + 1) * 117).toNat
                 let self1 := writeChain self parent_data 0 true
                 let parent1 := writeChain p self.file offset true
                 let newSelf : Chain :=
                   .mk p.forkpoint p.forkpointHash p.prevHash
                     parent1.file parent1.sizeRec p.parent
                 let newParent : Chain :=
                   .mk self.forkpoint (hash_raw_header sha (bytesToHex (parent_data.take 80)))
                     self.prevHash self1.file self1.sizeRec (some newSelf)
                 pure ⟨true, newSelf, some newParent⟩) := by
              rw [hbody, hgp, ok_bind, hgs, ok_bind, if_neg hge]
              show (if self.forkpoint ≤ p.forkpoint then _ else _) = _
              rw [if_neg hfk]
            constructor
            · rw [hval]
              constructor
              · intro h
                injection h with h
                rw [SwapOutcome.mk.injEq] at h
                exact absurd h.1 (by simp)
              · rintro (hnone | ⟨p', pw', sw', hps, hgp', hgs', hle⟩)
                · cases hnone
                · injection hps with hpe
                  subst hpe
                  rw [hgp] at hgp'
                  injection hgp' with hgp'
                  injection hgs' with hgs'
                  omega
            · intro p' pw' sw' hps hgp' hgs' hlt hfk'
              exact ⟨_, _, hval⟩

/-- Witness for C3: a fork holding more chainwork than its parent swaps. -/
theorem claim_C3_swap_condition_witness :
    childC.parent = some bestC ∧
    get_chainwork cfg0 bestC none = Except.ok 5 ∧
    get_chainwork cfg0 childC none = Except.ok 10 ∧
    (5 : Nat) < 10 ∧ bestC.forkpoint < childC.forkpoint ∧
    (∃ ns np, swap_with_parent_once shaId cfg0 childC = Except.ok ⟨true, ns, some np⟩) :=
  ⟨rfl, by decide, by decide, by decide, by decide,
    (claim_C3_swap_condition shaId cfg0 childC).2 bestC 5 10 rfl (by decide) (by decide)
      (by decide) (by decide)⟩

end ElectrumChi
